import Mathlib

/-
Verification of the GameCube memory-card adapter driver
(`adapter.py` and `raspi/adapter.py`).

The Python sources are shallowly embedded: Python integers are `Nat`
(arbitrary precision, as in Python), power-of-two bit masks such as
`& 0xffffffff` are written as `% 2 ^ 32`, non-power masks keep `&&&`,
and code that raises exceptions is modelled with `Option` / `Except`
or an explicit error component.  Bus activity is modelled as a trace
of issued commands so that statements of the form "no transfer is
issued before validation" are expressible.
-/

namespace GCAdapter

/-- Error kinds corresponding to the exception sites of `adapter.py`
(section 7 of the specification gives them these names). -/
inductive Err where
  | nothingPlugged
  | notAMemoryCard
  | indexError
  | invalidArgument
  | timeout
  | eraseFailed
  | programFailed
  | unlockFailed
deriving DecidableEq, Repr

/-! ## Address codec

`GCM._addr_to_bytes` in `adapter.py` (the encoder used by every
command that carries an address) and `addr_from_bytes` in
`raspi/adapter.py` (the decoder). -/

/-- Embedding of `GCM._addr_to_bytes`: the four address bytes
`(a >> 17) & 0x7f`, `(a >> 9) & 0xff`, `(a >> 7) & 0x03`, `a & 0x7f`. -/
def addrToBytes (address : Nat) : List Nat :=
  [(address >>> 17) % 128,
   (address >>> 9) % 256,
   (address >>> 7) % 4,
   address % 128]

/-- Embedding of `raspi/adapter.py` `addr_from_bytes`:
`b0 << 17  +  b1 << 9  +  (b2 & 3) << 7  +  (b3 & 0x7f)`. -/
def addrFromBytes (b : List Nat) : Nat :=
  ((b.getD 0 0) <<< 17) + ((b.getD 1 0) <<< 9) +
    ((b.getD 2 0) % 4) <<< 7 + (b.getD 3 0) % 128

/-! ## Card identification (`GCM.__init__`, lines 230-243)

The constructor parses the 4-byte EXI identification word. -/

/-- `_SECTOR_SIZE_LIST` from `adapter.py` (six entries). -/
def sectorSizeList : List Nat :=
  [0x2000, 0x4000, 0x8000, 0x10000, 0x20000, 0x40000]

/-- `_CARD_LATENCY_LIST` from `adapter.py` (eight entries). -/
def cardLatencyList : List Nat :=
  [0x4, 0x8, 0x10, 0x20, 0x40, 0x80, 0x100, 0x200]

/-- Card geometry derived from the identification word. -/
structure Geometry where
  sizeBytes : Nat
  turnaround : Nat
  sectorSize : Nat
deriving DecidableEq, Repr

/-- Embedding of the identification part of `GCM.__init__`:
reject a zero id, reject an id with reserved bits (`0xffffc003`) set,
otherwise derive size `((id >> 2) & 0x3f) << 19`, the turnaround count
`_CARD_LATENCY_LIST[(id >> 8) & 0x7]` and the sector size
`_SECTOR_SIZE_LIST[(id >> 11) & 0x7]` (Python list indexing raises
when the index is out of range, hence the `get?`). -/
def parseExiId (exiId : Nat) : Except Err Geometry :=
  if exiId = 0 then .error .nothingPlugged
  else if exiId &&& 0xffffc003 ≠ 0 then .error .notAMemoryCard
  else
    match cardLatencyList.get? ((exiId >>> 8) % 8),
          sectorSizeList.get? ((exiId >>> 11) % 8) with
    | some lat, some sec =>
        .ok ⟨((exiId >>> 2) % 64) <<< 19, lat, sec⟩
    | _, _ => .error .indexError

/-! ## Checksums (`_checksum`, `GCMHeader.getChecksum`)

`_checksum` walks an iterator two bytes at a time, accumulating
big-endian 16-bit words; it raises `ValueError` on an odd-length
region.  `GCMHeader.getChecksum` applies it to the header bytes that
precede the `checksum1` field. -/

/-- The pairwise accumulation loop of `_checksum`:
`total += (data[2i] << 8) | data[2i+1]`. -/
def checksumTotal : List Nat → Nat
  | a :: b :: rest => ((a <<< 8) ||| b) + checksumTotal rest
  | _ => 0

/-- The `0xffff → 0` normalization applied to each checksum word. -/
def normChecksum (x : Nat) : Nat := if x = 0xffff then 0 else x

/-- Embedding of `_checksum`: `None` models the `ValueError` on an
odd-length region; otherwise `checksum1 = total & 0xffff` and
`checksum2 = -(total + len // 2) & 0xffff` (Python's `&` of a negative
number is the mathematical modulus, hence the `Int.emod`), each
normalized from `0xffff` to `0`. -/
def checksumBytes (data : List Nat) : Option (Nat × Nat) :=
  if data.length % 2 = 1 then none
  else
    some (normChecksum (checksumTotal data % 65536),
      normChecksum ((-((checksumTotal data : Int) +
        ((data.length / 2 : Nat) : Int)) % 65536).toNat))

/-- Byte sizes of the `GCMHeader` fields that precede `checksum1`:
`serial[12]`, `time u64`, `bias u32`, `lang u32`, `unk u32`,
`device_id u16`, `size_megabits u16`, `encoding u16`,
`padding[0x1d6]`.  The structure is packed (`_pack_ = 1`), so the
offset of `checksum1` is their plain sum. -/
def headerFieldSizes : List Nat := [12, 8, 4, 4, 4, 2, 2, 2, 0x1d6]

/-- Offset of the `checksum1` field inside the packed header. -/
def checksum1Offset : Nat := headerFieldSizes.sum

/-- Embedding of `GCMHeader.getChecksum`: checksum of the raw header
bytes truncated at the offset of `checksum1`. -/
def getChecksum (headerBytes : List Nat) : Option (Nat × Nat) :=
  checksumBytes (headerBytes.take checksum1Offset)

/-- The specification's word sum: `Σ (R[2i] << 8 | R[2i+1])` over the
`L / 2` big-endian 16-bit words of the region. -/
def beWordSum (r : List Nat) : Nat :=
  ∑ i ∈ Finset.range (r.length / 2), ((r.getD (2 * i) 0 <<< 8) ||| r.getD (2 * i + 1) 0)

/-! ## Header serial obfuscation (`GCMHeader._iterSerialKey`,
`getDecodedSerial`, `setEncodedSerial`)

The Python generator starts from `self.time` (a `c_uint64` field) and
alternates `key_value = ((key_value * 0x41c64e6d + 0x3039) >> 16)`
(yielded) with the same step followed by `& 0x7fff` (not yielded).
Python integers are unbounded, so no 32-bit truncation occurs. -/

/-- The first `n` values yielded by `_iterSerialKey` when the internal
state starts at `kv`. -/
def serialKeys (kv : Nat) : Nat → List Nat
  | 0 => []
  | m + 1 =>
    ((kv * 0x41c64e6d + 0x3039) >>> 16) ::
      serialKeys (((((kv * 0x41c64e6d + 0x3039) >>> 16) * 0x41c64e6d + 0x3039) >>> 16) % 32768) m

/-- The keystream of `_iterSerialKey` seeded by the header time. -/
def iterSerialKey (t n : Nat) : List Nat := serialKeys t n

/-- Closed-form (index-addressed) version of the keystream: value `0`
is `(t * 0x41c64e6d + 0x3039) >> 16` computed from the full seed, and
each later value applies the masked intermediate step to its
predecessor. -/
def specSerialKey (t : Nat) : Nat → Nat
  | 0 => (t * 0x41c64e6d + 0x3039) >>> 16
  | i + 1 =>
    ((((specSerialKey t i * 0x41c64e6d + 0x3039) >>> 16) % 32768) * 0x41c64e6d + 0x3039) >>> 16

/-- The `GCMHeader` big-endian structure of `adapter.py` with integer
fields as `Nat` (each stored value is already reduced by its ctypes
field width at the assignment sites modelled here). -/
structure Header where
  serial : List Nat
  time : Nat
  bias : Nat
  lang : Nat
  unk : Nat
  deviceId : Nat
  sizeMegabits : Nat
  encoding : Nat
  padding : List Nat
  checksum1 : Nat
  checksum2 : Nat
deriving DecidableEq, Repr

/-- Embedding of `GCMHeader.getDecodedSerial`: each serial byte is
`(byte - key_value) & 0xff`, the generator being zipped against the
serial (Python's `&` of a negative value is the mathematical
modulus). -/
def getDecodedSerial (h : Header) : List Nat :=
  List.zipWith (fun (b k : Nat) => (((b : Int) - (k : Int)) % 256).toNat)
    h.serial (iterSerialKey h.time h.serial.length)

/-- Embedding of `GCMHeader.setEncodedSerial`: a 12-byte check
(`ValueError` otherwise, modelled as `none`), the time field is
overwritten first (`c_uint64` stores it modulo `2 ^ 64`), then each
serial byte is stored as `(byte + key_value) & 0xff` with the
keystream seeded from the newly stored time. -/
def setEncodedSerial (h : Header) (serial : List Nat) (t : Nat) : Option Header :=
  if serial.length ≠ 12 then none
  else some ⟨List.zipWith (fun (b k : Nat) => (b + k) % 256) serial
      (iterSerialKey (t % 18446744073709551616) serial.length),
    t % 18446744073709551616, h.bias, h.lang, h.unk, h.deviceId,
    h.sizeMegabits, h.encoding, h.padding, h.checksum1, h.checksum2⟩

/-! ## Unlock challenge hash (`GCM._unlock`, lines 365-412)

The unlock handshake computes a 32-bit response from the 8-byte
challenge.  The Python loop keeps six mutable values
(`running_sum`, `challenge_hash`, `key0`, `key1` and the previous
nibble pair); `for swap_offset in range(challenge_sum + 9,
challenge_sum + 16)` performs 7 iterations, each consuming the next
high/low nibble pair of the challenge — with an 8-byte challenge the
iterator supplies exactly the pair taken before the loop plus the 7
pairs the loop consumes, so the loop is modelled as a fold over the
remaining pairs with the offset starting at `challenge_sum + 9`. -/

/-- The four mutable hash-state variables of `_unlock`. -/
structure HState where
  run : Nat
  hash : Nat
  k0 : Nat
  k1 : Nat
deriving DecidableEq, Repr

/-- Embedding of the inner `rr32` helper of `_unlock`:
`shift &= 0x1f`, then `((value & 0xffffffff) >> shift) |
(value << (32 - shift)) & 0xffffffff`. -/
def rr32 (value shift : Nat) : Nat :=
  ((value % 2 ^ 32) >>> (shift % 32)) |||
    ((value <<< (32 - shift % 32)) % 2 ^ 32)

/-- One iteration of the `_unlock` challenge loop, exactly as the
Python statements execute (`n0, n1` are the previous nibble pair,
`n2, n3` the pair consumed this iteration, `off` the swap offset). -/
def codeStep (st : HState) (n0 n1 n2 n3 off : Nat) : HState :=
  let t := ((if n3 &&& 8 ≠ 0 then 0xff00 else 0) ||| ((n3 <<< 4) ||| n1)) ^^^
    (n0 <<< 8) ^^^ (n2 <<< 12)
  let run := (st.run + t) % 2 ^ 32
  let hash := (st.hash + rr32 ((st.k0 ^^^ st.k1) + run) off) % 2 ^ 32
  let k0 := ((run ^^^ 0xffffffff) &&& hash) ||| (st.k1 >>> 16) |||
    (run &&& st.k1 &&& 0xffff0000)
  let k1 := run ^^^ hash ^^^ k0
  ⟨run, hash, k0, k1⟩

/-- The `_unlock` loop: consume the nibble pairs left to right,
incrementing the swap offset each iteration. -/
def codeLoop : List (Nat × Nat) → Nat × Nat → Nat → HState → HState
  | [], _, _, st => st
  | p :: rest, prev, off, st =>
    codeLoop rest p (off + 1) (codeStep st prev.1 prev.2 p.1 p.2 off)

/-- `iter_nibble`: each challenge byte yields its high then its low
nibble. -/
def nibblePairs (c : List Nat) : List (Nat × Nat) :=
  c.map (fun b => (b >>> 4, b % 16))

/-- `challenge_sum = sum(challenge)`. -/
def challengeSum (c : List Nat) : Nat := c.sum

/-- The final `challenge_hash` computed by `_unlock` from the
challenge bytes: state seeded with `challenge_sum + 0x170a7489`,
`0x05efe0aa`, `0xdaf4b157`, `0x6bbec3b6`; first nibble pair taken
before the loop; offsets `challenge_sum + 9, ...`. -/
def challengeHash (c : List Nat) : Nat :=
  match nibblePairs c with
  | [] => 0
  | p :: rest =>
    (codeLoop rest p (challengeSum c + 9)
      ⟨challengeSum c + 0x170a7489, 0x05efe0aa, 0xdaf4b157, 0x6bbec3b6⟩).hash

/-- `int.to_bytes(n, 'big')`. -/
def toBytesBE : Nat → Nat → List Nat
  | 0, _ => []
  | k + 1, v => ((v >>> (8 * k)) % 256) :: toBytesBE k v

/-- The response issued by `_unlock`:
`challenge_hash.to_bytes(4, 'big')`. -/
def unlockResponse (c : List Nat) : List Nat := toBytesBE 4 (challengeHash c)

/-- The specification's `rotate_right_32`: a bitwise right rotation of
the 32-bit value, the shift count already reduced to its low 5 bits by
the caller. -/
def rotr32 (v s : Nat) : Nat :=
  ((v % 2 ^ 32) >>> s) ||| (((v % 2 ^ 32) <<< (32 - s)) % 2 ^ 32)

/-- One iteration of the challenge-hash algorithm exactly as the
specification section 4.5 words it: `t = ((n3 & 8) ? 0xff00 : 0) |
((n3 << 4) | n1)`, then `t ^= (n0 << 8) ^ (n2 << 12)`, and the
`running` / `hash` / `key0` / `key1` updates with all arithmetic
mod `2 ^ 32` and the rotation shift `swap_offset & 0x1f`. -/
def specStep (st : HState) (n0 n1 n2 n3 off : Nat) : HState :=
  let t0 := (if n3 &&& 8 ≠ 0 then 0xff00 else 0) ||| ((n3 <<< 4) ||| n1)
  let t := t0 ^^^ ((n0 <<< 8) ^^^ (n2 <<< 12))
  let run := (st.run + t) % 2 ^ 32
  let hash := (st.hash + rotr32 ((st.k0 ^^^ st.k1) + run) (off % 32)) % 2 ^ 32
  let k0 := (((0xffffffff ^^^ run) &&& hash) ||| (st.k1 >>> 16) |||
    (run &&& st.k1 &&& 0xffff0000)) % 2 ^ 32
  let k1 := run ^^^ hash ^^^ k0
  ⟨run, hash, k0, k1⟩

/-- The specification's loop over the 7 swap offsets, consuming one
nibble pair per iteration. -/
def specLoop : List (Nat × Nat) → Nat × Nat → Nat → HState → HState
  | [], _, _, st => st
  | p :: rest, prev, off, st =>
    specLoop rest p (off + 1) (specStep st prev.1 prev.2 p.1 p.2 off)

/-- The section 4.5 hash: `S = Σ challenge[i]`, `running = S +
0x170a7489`, `hash = 0x05efe0aa`, `key0 = 0xdaf4b157`,
`key1 = 0x6bbec3b6`, nibbles high-then-low left to right. -/
def specChallengeHash (c : List Nat) : Nat :=
  match nibblePairs c with
  | [] => 0
  | p :: rest =>
    (specLoop rest p (challengeSum c + 9)
      ⟨challengeSum c + 0x170a7489, 0x05efe0aa, 0xdaf4b157, 0x6bbec3b6⟩).hash

/-- The section 4.5 response: the hash as big-endian 4 bytes. -/
def specResponse (c : List Nat) : List Nat := toBytesBE 4 (specChallengeHash c)

/-! ## Differential writer (`main`, lines 764-795)

The write action reads two images, requires both to have exactly the
card's size, then for every sector (of `sector_size` bytes) whose old
and new contents differ issues one `erase_sector` at the sector base
followed by `sector_size / 0x80` `write_page` calls, counting the
differing sectors.  The bus operations are abstracted as a list of
erase/write operations in program order. -/

/-- An erase or write issued by the differential writer. -/
inductive DiffOp where
  | erase (addr : Nat)
  | write (addr : Nat) (data : List Nat)
deriving DecidableEq, Repr

/-- The inner loop of the write action: `writes_per_block` page writes
at successive `0x80`-byte offsets into the current sector. -/
def pageWrites (sector : List Nat) (pos : Nat) : Nat → Nat → List DiffOp
  | 0, _ => []
  | j + 1, sp =>
    DiffOp.write (pos + sp) ((sector.drop sp).take 128) ::
      pageWrites sector pos j (sp + 128)

/-- The outer loop of the write action over the remaining block count,
threading the running position and the `diff_count` accumulator. -/
def diffLoop (old new : List Nat) (ss wpb : Nat) : Nat → Nat → Nat → List DiffOp × Nat
  | 0, _, cnt => ([], cnt)
  | b + 1, pos, cnt =>
    if (old.drop pos).take ss = (new.drop pos).take ss then
      diffLoop old new ss wpb b (pos + ss) cnt
    else
      let r := diffLoop old new ss wpb b (pos + ss) (cnt + 1)
      (DiffOp.erase pos :: (pageWrites ((new.drop pos).take ss) pos wpb 0 ++ r.1), r.2)

/-- Embedding of the write action of `main`: image-size check (the
`ValueError('image size mismatch')`), the two divisibility assertions,
then the sector loop.  Returns the issued operations and the reported
count. -/
def diffWrite (totalSize ss : Nat) (old new : List Nat) : Option (List DiffOp × Nat) :=
  if old.length ≠ new.length ∨ new.length ≠ totalSize then none
  else if totalSize % ss ≠ 0 then none
  else if ss % 128 ≠ 0 then none
  else some (diffLoop old new ss (ss / 128) (totalSize / ss) 0 0)

/-- The specification's per-sector behaviour: nothing for a clean
sector, otherwise an erase at the sector base followed by the
contiguous page writes covering the sector. -/
def sectorOpsAt (old new : List Nat) (ss wpb base : Nat) : List DiffOp :=
  if (old.drop base).take ss = (new.drop base).take ss then []
  else DiffOp.erase base ::
    (List.range wpb).map (fun j =>
      DiffOp.write (base + j * 128) ((new.drop (base + j * 128)).take 128))

/-! ## Command layer and session (`GCM.read_page`, `GCM.write_page`,
`GCM.erase_sector`, `GCM._waitForIdle`, `GCM.__init__`)

The bus activity of each method is modelled as the ordered list of
transfers it submits; the card's successive status-register replies
are an oracle `statuses : Nat → Nat` consumed left to right (the
index counts `get_status` reads); the GPIO edge line is a Boolean
(whether a falling edge arrives before the 1-second timeout).  None
of `read_page`, `write_page`, `erase_sector` receives the card size:
their validation is exactly the alignment / length checks of the
source. -/

/-- A bus transfer issued by the command layer. -/
inductive Cmd where
  | exiId
  | getStatus
  | clearStatus
  | setInterrupt (enable : Bool)
  | wake
  | spiWrite (tx : List Nat)
  | readCmd (tx : List Nat) (rxLen : Nat)
deriving DecidableEq, Repr

/-- The environment a session runs against: the card's successive
status replies, the edge line, and the outcome of the unlock dance
(whose bus-level detail is covered by the challenge-hash model
above). -/
structure Env where
  statuses : Nat → Nat
  edge : Bool
  unlock : Except Err (List Nat)

/-- The polling loop of `_waitForIdle` (no-interrupt path): up to
`timeout * 1000` one-millisecond polls of `get_status`, stopping when
`BUSY` (bit 7) deasserts; returns the issued status reads, the next
oracle index, and whether the card went idle in time. -/
def pollIdle (env : Env) : Nat → Nat → List Cmd × Nat × Bool
  | 0, i => ([], i, false)
  | f + 1, i =>
    if env.statuses i &&& 0x80 = 0 then ([Cmd.getStatus], i + 1, true)
    else
      let r := pollIdle env f (i + 1)
      (Cmd.getStatus :: r.1, r.2)

/-- Embedding of `_waitForIdle` with the default 1 s timeout: with
interrupts, block on the edge line (timeout if no edge); without,
poll the status register 1000 times. -/
def waitForIdle (env : Env) (hasInt : Bool) (i : Nat) : List Cmd × Nat × Option Err :=
  if hasInt then
    if env.edge then ([], i, none) else ([], i, some Err.timeout)
  else
    let r := pollIdle env 1000 i
    (r.1, r.2.1, if r.2.2 then none else some Err.timeout)

/-- Embedding of `GCM.read_page`: address must be a multiple of
`READ_SZ = 0x200` and length at most `0x200`, checked before the
single read transfer is submitted. -/
def readPage (addr len : Nat) : List Cmd × Option Err :=
  if addr % 0x200 ≠ 0 then ([], some Err.invalidArgument)
  else if len > 0x200 then ([], some Err.invalidArgument)
  else ([Cmd.readCmd (0x52 :: addrToBytes addr) len], none)

/-- Embedding of `GCM.write_page`: data at most `WRITE_SZ = 0x80`
bytes and address a multiple of `0x80`, checked before any transfer;
then `clear_status`, the `0xf2` command, the wait-idle, and the
`PROGRAMEERROR` status check. -/
def writePage (env : Env) (hasInt : Bool) (i : Nat) (addr : Nat) (data : List Nat) :
    List Cmd × Nat × Option Err :=
  if data.length > 0x80 then ([], i, some Err.invalidArgument)
  else if addr % 0x80 ≠ 0 then ([], i, some Err.invalidArgument)
  else
    let w := waitForIdle env hasInt i
    let trace := Cmd.clearStatus :: Cmd.spiWrite (0xf2 :: (addrToBytes addr ++ data)) :: w.1
    match w.2.2 with
    | some e => (trace, w.2.1, some e)
    | none =>
      if env.statuses w.2.1 &&& 0x8 ≠ 0 then
        (trace ++ [Cmd.getStatus], w.2.1 + 1, some Err.programFailed)
      else (trace ++ [Cmd.getStatus], w.2.1 + 1, none)

/-- Embedding of `GCM.erase_sector`: the address must be a multiple of
the sector size, checked before any transfer; then `clear_status`, the
`0xf1` command carrying the upper two address bytes, the wait-idle,
and the `ERASEERROR` status check. -/
def eraseSector (env : Env) (hasInt : Bool) (ss : Nat) (i : Nat) (addr : Nat) :
    List Cmd × Nat × Option Err :=
  if addr % ss ≠ 0 then ([], i, some Err.invalidArgument)
  else
    let w := waitForIdle env hasInt i
    let trace := Cmd.clearStatus :: Cmd.spiWrite (0xf1 :: (addrToBytes addr).take 2) :: w.1
    match w.2.2 with
    | some e => (trace, w.2.1, some e)
    | none =>
      if env.statuses w.2.1 &&& 0x10 ≠ 0 then
        (trace ++ [Cmd.getStatus], w.2.1 + 1, some Err.eraseFailed)
      else (trace ++ [Cmd.getStatus], w.2.1 + 1, none)

/-- The session state produced by `GCM.__init__`. -/
structure Session where
  geom : Geometry
  hasInterrupt : Bool
  flashId : Option (List Nat)

/-- The tail of `GCM.__init__` after interrupt configuration: if the
current status lacks `UNLOCKED` (bit 6), run the unlock dance (its
outcome abstracted in the environment) and record the card id. -/
def finishInit (env : Env) (geom : Geometry) (hasInt : Bool) (st : Nat) :
    Except Err Session :=
  if st &&& 0x40 = 0 then
    match env.unlock with
    | .error e => .error e
    | .ok cid => .ok ⟨geom, hasInt, some cid⟩
  else .ok ⟨geom, hasInt, none⟩

/-- Embedding of `GCM.__init__`: identification, wake from sleep (one
extra status read), interrupt configuration — with a GPIO line, if
`INT_EN` (bit 1) is clear the constructor sends the enable command,
re-reads the status and takes whatever `INT_EN` it then reports as
`has_interrupt`, succeeding either way — and the unlock step. -/
def gcmInit (env : Env) (exiId : Nat) (gpioPresent : Bool) : Except Err Session :=
  match parseExiId exiId with
  | .error e => .error e
  | .ok geom =>
    let st0 := env.statuses 0
    let st1 := if st0 &&& 0x20 ≠ 0 then env.statuses 1 else st0
    let i1 : Nat := if st0 &&& 0x20 ≠ 0 then 2 else 1
    if gpioPresent then
      if st1 &&& 0x2 ≠ 0 then finishInit env geom true st1
      else finishInit env geom (env.statuses i1 &&& 0x2 != 0) (env.statuses i1)
    else finishInit env geom false st1

/-! ## Theorems -/

/-- The two-at-a-time accumulation of `_checksum` computes the sum of
the big-endian 16-bit words of an even-length region. -/
theorem checksumTotal_eq_beWordSum : ∀ (r : List Nat), r.length % 2 = 0 →
    checksumTotal r = beWordSum r
  | [], _ => by simp [checksumTotal, beWordSum]
  | [a], h => by simp at h
  | a :: b :: rest, h => by
    have h2 : rest.length % 2 = 0 := by
      simp only [List.length_cons] at h; omega
    have ih := checksumTotal_eq_beWordSum rest h2
    rw [checksumTotal, ih]
    unfold beWordSum
    have hlen : (a :: b :: rest).length / 2 = rest.length / 2 + 1 := by
      simp only [List.length_cons]; omega
    rw [hlen, Finset.sum_range_succ']
    have hterm : ∀ i,
        ((a :: b :: rest).getD (2 * (i + 1)) 0 <<< 8 |||
          (a :: b :: rest).getD (2 * (i + 1) + 1) 0) =
        (rest.getD (2 * i) 0 <<< 8 ||| rest.getD (2 * i + 1) 0) := by
      intro i
      have e : 2 * (i + 1) = 2 * i + 1 + 1 := by ring
      rw [e]
      simp [List.getD_cons_succ]
    rw [Finset.sum_congr rfl (fun i _ => hterm i)]
    simp [List.getD_cons_zero, List.getD_cons_succ]
    omega

/-- A negated sum taken modulo `2 ^ 16` only depends on the addend
modulo `2 ^ 16`. -/
theorem negmod_congr (t l : Nat) :
    ((-((t : Int) + (l : Int))) % 65536).toNat =
      ((-(((t % 65536 : Nat) : Int) + (l : Int))) % 65536).toNat := by
  omega

/-- Shifting left then reducing mod `2 ^ 32` only depends on the low
32 bits of the shifted value. -/
theorem shl_mod (v k : Nat) : (v <<< k) % 2 ^ 32 = ((v % 2 ^ 32) <<< k) % 2 ^ 32 := by
  rw [Nat.shiftLeft_eq, Nat.shiftLeft_eq, Nat.mul_mod, Nat.mul_mod (v % 2 ^ 32)]
  simp [Nat.mod_mod_of_dvd]

/-- The code's `rr32` (which masks the shift internally and shifts the
unmasked value left) agrees with the specification's 32-bit rotation
applied to the masked shift count. -/
theorem rr32_eq_rotr32 (v s : Nat) : rr32 v s = rotr32 v (s % 32) := by
  unfold rr32 rotr32
  rw [shl_mod]

/-- The `key0` update produces a value below `2 ^ 32` whenever the
inputs are. -/
theorem k0_lt (run hash k1v : Nat) (h1 : run < 2 ^ 32) (h2 : hash < 2 ^ 32)
    (h3 : k1v < 2 ^ 32) :
    ((run ^^^ 0xffffffff) &&& hash) ||| (k1v >>> 16) |||
      (run &&& k1v &&& 0xffff0000) < 2 ^ 32 := by
  apply Nat.or_lt_two_pow
  · apply Nat.or_lt_two_pow
    · exact lt_of_le_of_lt Nat.and_le_right h2
    · rw [Nat.shiftRight_eq_div_pow]
      exact lt_of_le_of_lt (Nat.div_le_self _ _) h3
  · exact lt_of_le_of_lt (le_trans Nat.and_le_left Nat.and_le_left) h1

/-- The specification's closing `& 0xffffffff` on `key0` is a no-op. -/
theorem or3_mod (run hash k1v : Nat) (h1 : run < 2 ^ 32) (h2 : hash < 2 ^ 32)
    (h3 : k1v < 2 ^ 32) :
    (((run ^^^ 0xffffffff) &&& hash) ||| (k1v >>> 16) |||
      (run &&& k1v &&& 0xffff0000)) % 2 ^ 32 =
    ((run ^^^ 0xffffffff) &&& hash) ||| (k1v >>> 16) |||
      (run &&& k1v &&& 0xffff0000) :=
  Nat.mod_eq_of_lt (k0_lt run hash k1v h1 h2 h3)

/-- The loop invariant: `key1` stays below `2 ^ 32`. -/
theorem codeStep_k1_lt (st : HState) (h : st.k1 < 2 ^ 32) (n0 n1 n2 n3 off : Nat) :
    (codeStep st n0 n1 n2 n3 off).k1 < 2 ^ 32 := by
  simp only [codeStep]
  apply Nat.xor_lt_two_pow
  · apply Nat.xor_lt_two_pow
    · exact Nat.mod_lt _ (by norm_num)
    · exact Nat.mod_lt _ (by norm_num)
  · exact k0_lt _ _ _ (Nat.mod_lt _ (by norm_num)) (Nat.mod_lt _ (by norm_num)) h

/-- One code iteration equals one specification iteration (the only
textual differences are xor associativity, the commuted complement,
the internal shift masking of `rr32` and the redundant final mask on
`key0`). -/
theorem step_eq (st : HState) (h : st.k1 < 2 ^ 32) (n0 n1 n2 n3 off : Nat) :
    codeStep st n0 n1 n2 n3 off = specStep st n0 n1 n2 n3 off := by
  simp only [codeStep, specStep, HState.mk.injEq]
  rw [Nat.xor_assoc ((if n3 &&& 8 ≠ 0 then 0xff00 else 0) ||| ((n3 <<< 4) ||| n1))
    (n0 <<< 8) (n2 <<< 12)]
  rw [rr32_eq_rotr32]
  rw [Nat.xor_comm 4294967295]
  rw [or3_mod]
  · exact ⟨rfl, rfl, rfl, rfl⟩
  · exact Nat.mod_lt _ (by norm_num)
  · exact Nat.mod_lt _ (by norm_num)
  · exact h

/-- The two loops agree from any state whose `key1` is a 32-bit
value. -/
theorem loop_eq : ∀ (pairs : List (Nat × Nat)) (prev : Nat × Nat) (off : Nat)
    (st : HState), st.k1 < 2 ^ 32 → codeLoop pairs prev off st = specLoop pairs prev off st
  | [], _, _, _, _ => rfl
  | p :: rest, prev, off, st, h => by
    rw [codeLoop, specLoop, ← step_eq st h,
      loop_eq rest p (off + 1) _ (codeStep_k1_lt st h _ _ _ _ _)]

/-- The hash computed by `_unlock` is the section 4.5 hash. -/
theorem challengeHash_eq_spec (c : List Nat) : challengeHash c = specChallengeHash c := by
  unfold challengeHash specChallengeHash
  cases hnp : nibblePairs c with
  | nil => rfl
  | cons p rest => exact congrArg HState.hash (loop_eq rest p _ _ (by norm_num))

/-- Claim C1: for every 8-byte challenge, the unlock response equals
the big-endian 4-byte encoding of the hash produced by the section 4.5
algorithm (initial values `S + 0x170a7489`, `0x05efe0aa`,
`0xdaf4b157`, `0x6bbec3b6`; nibbles high-then-low left to right; swap
offsets `S + 9 .. S + 15`; `rotate_right_32` masking its shift to the
low 5 bits). -/
theorem unlock_response_matches_spec (c : List Nat) (h : c.length = 8) :
    unlockResponse c = specResponse c := by
  unfold unlockResponse specResponse
  rw [challengeHash_eq_spec]

/-- Witness for `unlock_response_matches_spec` at the concrete
challenge `01 02 03 04 05 06 07 08`, whose byte sum is 36; the single
deterministic response is `d5 4e 07 1d`. -/
theorem unlock_response_witness :
    ([1, 2, 3, 4, 5, 6, 7, 8] : List Nat).length = 8 ∧
    challengeSum [1, 2, 3, 4, 5, 6, 7, 8] = 36 ∧
    unlockResponse [1, 2, 3, 4, 5, 6, 7, 8] = specResponse [1, 2, 3, 4, 5, 6, 7, 8] :=
  ⟨rfl, by decide, unlock_response_matches_spec [1, 2, 3, 4, 5, 6, 7, 8] rfl⟩

/-- Length of the modelled keystream. -/
theorem serialKeys_length : ∀ (kv n : Nat), (serialKeys kv n).length = n
  | _, 0 => rfl
  | kv, m + 1 => by
    rw [serialKeys, List.length_cons, serialKeys_length]

/-- Shifting the generator state by one full yield-and-mask cycle
advances the closed-form stream by one index. -/
theorem specSerialKey_next (i : Nat) : ∀ kv : Nat,
    specSerialKey (((((kv * 0x41c64e6d + 0x3039) >>> 16) * 0x41c64e6d + 0x3039) >>> 16) % 32768) i =
      specSerialKey kv (i + 1) := by
  induction i with
  | zero => intro kv; rfl
  | succ i ih =>
    intro kv
    rw [specSerialKey, specSerialKey, ih kv]

/-- The generator's i-th yielded value is the i-th closed-form key. -/
theorem serialKeys_getD (i : Nat) : ∀ (kv n : Nat), i < n →
    (serialKeys kv n).getD i 0 = specSerialKey kv i := by
  induction i with
  | zero =>
    intro kv n h
    cases n with
    | zero => omega
    | succ m => rw [serialKeys, List.getD_cons_zero, specSerialKey]
  | succ i ih =>
    intro kv n h
    cases n with
    | zero => omega
    | succ m =>
      rw [serialKeys, List.getD_cons_succ, ih _ m (by omega), specSerialKey_next]

/-- Indexing a zipWith of Nat lists. -/
theorem zipWith_getD (f : Nat → Nat → Nat) :
    ∀ (as bs : List Nat) (i : Nat), i < as.length → i < bs.length →
      (List.zipWith f as bs).getD i 0 = f (as.getD i 0) (bs.getD i 0)
  | a :: as, b :: bs, 0, _, _ => rfl
  | a :: as, b :: bs, i + 1, ha, hb => by
    rw [List.zipWith_cons_cons, List.getD_cons_succ, List.getD_cons_succ,
      List.getD_cons_succ, zipWith_getD f as bs i (by simpa using ha) (by simpa using hb)]

/-- Byte-wise decode inverts byte-wise encode under a common
keystream. -/
theorem encdec : ∀ (s ks : List Nat), (∀ b ∈ s, b < 256) → s.length ≤ ks.length →
    List.zipWith (fun (b k : Nat) => (((b : Int) - (k : Int)) % 256).toNat)
      (List.zipWith (fun (b k : Nat) => (b + k) % 256) s ks) ks = s
  | [], _, _, _ => by simp
  | b :: s, k :: ks, hb, hl => by
    rw [List.zipWith_cons_cons, List.zipWith_cons_cons]
    have h1 : b < 256 := hb b (by simp)
    have hrest := encdec s ks (fun x hx => hb x (by simp [hx])) (by simpa using hl)
    rw [hrest]
    congr 1
    omega

/-- Claim C5 counterexample: the serial keystream is NOT a function of
the low 32 bits of the time field, and its arithmetic is not 32-bit:
times `2 ^ 32` and `0` agree on their low 32 bits, yet they produce
different keystreams and different decoded serials, and the first
yielded key for time `2 ^ 32` is itself `≥ 2 ^ 32`. -/
theorem serial_keystream_not_low32 :
    (4294967296 : Nat) % 4294967296 = (0 : Nat) % 4294967296 ∧
    iterSerialKey 4294967296 12 ≠ iterSerialKey 0 12 ∧
    getDecodedSerial ⟨List.replicate 12 0, 4294967296, 0, 0, 0, 0, 0, 0, [], 0, 0⟩ ≠
      getDecodedSerial ⟨List.replicate 12 0, 0, 0, 0, 0, 0, 0, 0, [], 0, 0⟩ ∧
    4294967296 ≤ (iterSerialKey 4294967296 12).getD 0 0 :=
  ⟨rfl, by decide, by decide, by decide⟩

/-- Claim C5 (amended): the keystream that decodes the header serial
is seeded by the full (unbounded) value of the 64-bit time field, and
each step computes `key_value = ((key_value * 0x41c64e6d + 0x3039) >> 16)`
in arbitrary-precision arithmetic, with the value masked to 15 bits
(`& 0x7fff`) between yields: byte `i` of the decoded serial is
`(raw[i] - key_i) mod 256` for the closed-form stream `specSerialKey`. -/
theorem serial_keystream_full_seed (h : Header) (i : Nat) (hi : i < h.serial.length) :
    (getDecodedSerial h).getD i 0 =
      (((h.serial.getD i 0 : Int) - (specSerialKey h.time i : Int)) % 256).toNat ∧
    specSerialKey h.time 0 = (h.time * 0x41c64e6d + 0x3039) >>> 16 ∧
    ∀ j : Nat, specSerialKey h.time (j + 1) =
      ((((specSerialKey h.time j * 0x41c64e6d + 0x3039) >>> 16) % 32768) *
        0x41c64e6d + 0x3039) >>> 16 := by
  refine ⟨?_, rfl, fun j => rfl⟩
  unfold getDecodedSerial iterSerialKey
  rw [zipWith_getD _ _ _ i hi (by rw [serialKeys_length]; exact hi)]
  rw [serialKeys_getD i _ _ hi]

/-- Witness for `serial_keystream_full_seed` at a concrete header. -/
theorem serial_keystream_full_seed_witness :
    (3 : Nat) < (List.replicate 12 7 : List Nat).length ∧
    ((getDecodedSerial ⟨List.replicate 12 7, 99, 0, 0, 0, 0, 0, 0, [], 0, 0⟩).getD 3 0 =
      ((((Header.serial ⟨List.replicate 12 7, 99, 0, 0, 0, 0, 0, 0, [], 0, 0⟩).getD 3 0 : Int) -
        (specSerialKey 99 3 : Int)) % 256).toNat ∧
    specSerialKey 99 0 = (99 * 0x41c64e6d + 0x3039) >>> 16 ∧
    ∀ j : Nat, specSerialKey 99 (j + 1) =
      ((((specSerialKey 99 j * 0x41c64e6d + 0x3039) >>> 16) % 32768) *
        0x41c64e6d + 0x3039) >>> 16) :=
  ⟨by decide, serial_keystream_full_seed ⟨List.replicate 12 7, 99, 0, 0, 0, 0, 0, 0, [], 0, 0⟩ 3 (by decide)⟩

/-- Claim C6: encoding a 12-byte serial with timestamp `t` and then
decoding returns the original serial, and the time field afterwards
equals `t` (for every `t` in the u64 range). -/
theorem setEncodedSerial_roundtrip (h : Header) (s : List Nat) (t : Nat)
    (hs : s.length = 12) (hb : ∀ b ∈ s, b < 256) (ht : t < 18446744073709551616) :
    ∃ h2 : Header, setEncodedSerial h s t = some h2 ∧
      getDecodedSerial h2 = s ∧ h2.time = t := by
  unfold setEncodedSerial
  rw [if_neg (by omega)]
  refine ⟨_, rfl, ?_, by simpa using Nat.mod_eq_of_lt ht⟩
  unfold getDecodedSerial
  have hmod : t % 18446744073709551616 = t := Nat.mod_eq_of_lt ht
  simp only [hmod]
  have hlen : (List.zipWith (fun (b k : Nat) => (b + k) % 256) s
      (iterSerialKey t s.length)).length = s.length := by
    rw [List.length_zipWith]
    unfold iterSerialKey
    rw [serialKeys_length]
    omega
  rw [hlen]
  exact encdec s (iterSerialKey t s.length) hb (by unfold iterSerialKey; rw [serialKeys_length])

/-- Witness for `setEncodedSerial_roundtrip` at a concrete serial and
timestamp. -/
theorem setEncodedSerial_roundtrip_witness :
    (List.replicate 12 0xab : List Nat).length = 12 ∧
    (∀ b ∈ (List.replicate 12 0xab : List Nat), b < 256) ∧
    (54321 : Nat) < 18446744073709551616 ∧
    ∃ h2 : Header, setEncodedSerial ⟨List.replicate 12 0, 0, 0, 0, 0, 0, 0, 0, [], 0, 0⟩
        (List.replicate 12 0xab) 54321 = some h2 ∧
      getDecodedSerial h2 = List.replicate 12 0xab ∧ h2.time = 54321 :=
  ⟨by decide, by decide, by decide,
    setEncodedSerial_roundtrip ⟨List.replicate 12 0, 0, 0, 0, 0, 0, 0, 0, [], 0, 0⟩
      (List.replicate 12 0xab) 54321 (by decide) (by decide) (by decide)⟩

/-- Claim C2 counterexample: the claimed round-trip range `[0, 2 ^ 26)`
fails at `a = 2 ^ 24`.  The encoder keeps only 7 bits of `a >> 17`
(mask `0x7f`), so bit 24 is dropped: decoding the encoded address
yields `0`, not `2 ^ 24`. -/
theorem addr_roundtrip_fails_at_2pow24 :
    16777216 < 2 ^ 26 ∧ addrFromBytes (addrToBytes 16777216) = 0 ∧
      addrFromBytes (addrToBytes 16777216) ≠ 16777216 :=
  ⟨by norm_num, rfl, by decide⟩

/-- Claim C2 (amended): the address codec round-trips on `[0, 2 ^ 24)`:
the four encoded bytes carry bits 0-6, 7-8, 9-16 and 17-23 of the
address, so exactly 24 bits survive. -/
theorem addr_roundtrip (a : Nat) (h : a < 2 ^ 24) :
    addrFromBytes (addrToBytes a) = a := by
  simp only [addrToBytes, addrFromBytes, Nat.shiftRight_eq_div_pow,
    Nat.shiftLeft_eq, List.getD_cons_zero, List.getD_cons_succ]
  norm_num
  omega

/-- Witness for `addr_roundtrip` at `a = 2 ^ 24 - 1`. -/
theorem addr_roundtrip_witness :
    16777215 < 2 ^ 24 ∧ addrFromBytes (addrToBytes 16777215) = 16777215 :=
  ⟨by norm_num, addr_roundtrip 16777215 (by norm_num)⟩

/-- Claim C3 counterexample: the identification word `0x00000085` has
its reserved bits set (`0x85 &&& 0xffffc003 = 1 ≠ 0`), so session
construction rejects it as "not a memory card" instead of succeeding
with a 512 KiB geometry. -/
theorem parseExiId_0x85_rejected :
    0x85 ≠ 0 ∧ 0x85 &&& 0xffffc003 ≠ 0 ∧
      parseExiId 0x85 = .error .notAMemoryCard :=
  ⟨by decide, by decide, rfl⟩

/-- Claim C3 (amended): the identification word `0x00000004` yields
size 512 KiB, turnaround 4 and sector size `0x2000`, and a non-zero
id is rejected as "not a memory card" exactly when its reserved bits
(mask `0xffffc003`) are set. -/
theorem parseExiId_ok (exiId : Nat) (h : exiId ≠ 0) :
    parseExiId 4 = .ok ⟨0x80000, 4, 0x2000⟩ ∧
      (parseExiId exiId = .error .notAMemoryCard ↔ exiId &&& 0xffffc003 ≠ 0) := by
  refine ⟨rfl, ?_⟩
  unfold parseExiId
  rw [if_neg h]
  by_cases hm : exiId &&& 0xffffc003 ≠ 0
  · simp [hm]
  · simp only [hm, if_neg]
    rcases hl : cardLatencyList.get? ((exiId >>> 8) % 8) with _ | lat <;>
      rcases hs : sectorSizeList.get? ((exiId >>> 11) % 8) with _ | sec <;>
      simp [hm]

/-- Witness for `parseExiId_ok` at `exiId = 0x85`: a nonzero id whose
reserved bits are set is reported as "not a memory card". -/
theorem parseExiId_ok_witness :
    (0x85 : Nat) ≠ 0 ∧ parseExiId 4 = .ok ⟨0x80000, 4, 0x2000⟩ ∧
      (parseExiId 0x85 = .error .notAMemoryCard ↔ (0x85 : Nat) &&& 0xffffc003 ≠ 0) :=
  ⟨by decide, parseExiId_ok 0x85 (by decide)⟩

/-- Claim C4: on an even-length region the checksum function returns
the big-endian 16-bit word sum modulo `2 ^ 16` and the negated
`sum + L/2` modulo `2 ^ 16`, each independently normalized from
`0xffff` to `0`; and the header checksums are computed over exactly
the 508 bytes preceding the stored `checksum1` field. -/
theorem checksum_ok (r : List Nat) (h : r.length % 2 = 0) :
    checksumBytes r = some (normChecksum (beWordSum r % 65536),
      normChecksum ((-(((beWordSum r % 65536 : Nat) : Int) +
        ((r.length / 2 : Nat) : Int)) % 65536).toNat)) ∧
    checksum1Offset = 508 ∧
    ∀ hb : List Nat, getChecksum hb = checksumBytes (hb.take 508) := by
  refine ⟨?_, by decide, fun hb => rfl⟩
  unfold checksumBytes
  rw [if_neg (by omega)]
  rw [checksumTotal_eq_beWordSum r h, negmod_congr (beWordSum r) (r.length / 2)]

/-- Witness for `checksum_ok` on the region `[0x12, 0x34, 0xff, 0xff]`. -/
theorem checksum_ok_witness :
    ([0x12, 0x34, 0xff, 0xff] : List Nat).length % 2 = 0 ∧
    checksumBytes [0x12, 0x34, 0xff, 0xff] = some (normChecksum (beWordSum [0x12, 0x34, 0xff, 0xff] % 65536),
      normChecksum ((-(((beWordSum [0x12, 0x34, 0xff, 0xff] % 65536 : Nat) : Int) +
        ((([0x12, 0x34, 0xff, 0xff] : List Nat).length / 2 : Nat) : Int)) % 65536).toNat)) ∧
    checksum1Offset = 508 ∧
    ∀ hb : List Nat, getChecksum hb = checksumBytes (hb.take 508) :=
  ⟨by decide, checksum_ok [0x12, 0x34, 0xff, 0xff] (by decide)⟩

/-- Unrolling `pageWrites`: the page writes are the `k` contiguous
`0x80`-byte slices starting at `sp`. -/
theorem pageWrites_eq (sector : List Nat) (pos : Nat) : ∀ (k sp : Nat),
    pageWrites sector pos k sp = (List.range k).map (fun j =>
      DiffOp.write (pos + (sp + j * 128)) ((sector.drop (sp + j * 128)).take 128)) := by
  intro k
  induction k with
  | zero => intro sp; rfl
  | succ k ih =>
    intro sp
    rw [pageWrites, ih (sp + 128), List.range_succ_eq_map, List.map_cons, List.map_map]
    refine congrArg₂ List.cons ?_ (List.map_congr_left ?_)
    · norm_num
    · intro j hj
      simp only [Function.comp_apply]
      have e : sp + 128 + j * 128 = sp + (j + 1) * 128 := by ring
      rw [e]

/-- A 128-byte slice of a sector slice is the corresponding absolute
slice of the image. -/
theorem slice_abs (x : List Nat) (base ss k : Nat) (h : k + 128 ≤ ss) :
    ((x.drop base).take ss |>.drop k).take 128 = (x.drop (base + k)).take 128 := by
  rw [List.drop_take, List.take_take, List.drop_drop]
  congr 1
  omega

/-- The page writes of one dirty sector, written with absolute image
offsets (valid because `0x80` divides the sector size). -/
theorem pageWrites_abs (new : List Nat) (base ss : Nat) (hss : ss % 128 = 0) :
    pageWrites ((new.drop base).take ss) base (ss / 128) 0 =
      (List.range (ss / 128)).map (fun j =>
        DiffOp.write (base + j * 128) ((new.drop (base + j * 128)).take 128)) := by
  rw [pageWrites_eq]
  apply List.map_congr_left
  intro j hj
  have hjlt : j < ss / 128 := List.mem_range.mp hj
  have hb : j * 128 + 128 ≤ ss := by omega
  rw [Nat.zero_add, slice_abs new base ss (j * 128) hb]

/-- `flatMap` over a range only depends on the function below the
bound. -/
theorem flatMap_ext_range (b : Nat) (f g : Nat → List DiffOp)
    (h : ∀ i, i < b → f i = g i) :
    (List.range b).flatMap f = (List.range b).flatMap g := by
  rw [List.flatMap_def, List.flatMap_def]
  exact congrArg _ (List.map_congr_left (fun a ha => h a (List.mem_range.mp ha)))

/-- `countP` over a range only depends on the predicate below the
bound. -/
theorem countP_ext_range (b : Nat) (f g : Nat → Bool)
    (h : ∀ i, i < b → f i = g i) :
    (List.range b).countP f = (List.range b).countP g :=
  List.countP_congr (fun a ha => by rw [h a (List.mem_range.mp ha)])

/-- The sector loop of the write action produces, in order, exactly
the per-sector operations of the sectors it scans, and adds the number
of dirty sectors to the accumulator. -/
theorem diffLoop_eq (old new : List Nat) (ss wpb : Nat)
    (hpw : ∀ base, pageWrites ((new.drop base).take ss) base wpb 0 =
      (List.range wpb).map (fun j =>
        DiffOp.write (base + j * 128) ((new.drop (base + j * 128)).take 128))) :
    ∀ (b pos cnt : Nat),
    diffLoop old new ss wpb b pos cnt =
      ((List.range b).flatMap (fun i => sectorOpsAt old new ss wpb (pos + i * ss)),
       cnt + (List.range b).countP (fun i =>
         decide ((old.drop (pos + i * ss)).take ss ≠ (new.drop (pos + i * ss)).take ss))) := by
  intro b
  induction b with
  | zero => intro pos cnt; simp [diffLoop]
  | succ b ih =>
    intro pos cnt
    rw [diffLoop]
    have hflat : (List.range (b + 1)).flatMap
        (fun i => sectorOpsAt old new ss wpb (pos + i * ss)) =
        sectorOpsAt old new ss wpb pos ++ (List.range b).flatMap
          (fun i => sectorOpsAt old new ss wpb (pos + ss + i * ss)) := by
      rw [List.range_succ_eq_map, List.flatMap_cons, List.flatMap_map]
      rw [Nat.zero_mul, Nat.add_zero]
      apply congrArg
      apply flatMap_ext_range
      intro i _
      simp only [Function.comp_apply, Nat.succ_eq_add_one]
      congr 1
      ring
    have hcnt : (List.range (b + 1)).countP (fun i =>
        decide ((old.drop (pos + i * ss)).take ss ≠ (new.drop (pos + i * ss)).take ss)) =
        (List.range b).countP (fun i =>
          decide ((old.drop (pos + ss + i * ss)).take ss ≠
            (new.drop (pos + ss + i * ss)).take ss)) +
        (if (old.drop pos).take ss = (new.drop pos).take ss then 0 else 1) := by
      rw [List.range_succ_eq_map, List.countP_cons, List.countP_map]
      rw [Nat.zero_mul, Nat.add_zero]
      have hext : (List.range b).countP ((fun i =>
          decide ((old.drop (pos + i * ss)).take ss ≠ (new.drop (pos + i * ss)).take ss)) ∘
            Nat.succ) =
          (List.range b).countP (fun i =>
            decide ((old.drop (pos + ss + i * ss)).take ss ≠
              (new.drop (pos + ss + i * ss)).take ss)) := by
        apply countP_ext_range
        intro i _
        simp only [Function.comp_apply, Nat.succ_eq_add_one]
        congr 3
        · ring
        · ring
      rw [hext]
      by_cases heq : (old.drop pos).take ss = (new.drop pos).take ss
      · simp [heq]
      · simp [heq]
    rw [hflat, hcnt]
    by_cases heq : (old.drop pos).take ss = (new.drop pos).take ss
    · rw [if_pos heq, ih (pos + ss) cnt]
      have h0 : sectorOpsAt old new ss wpb pos = [] := by
        unfold sectorOpsAt
        rw [if_pos heq]
      rw [h0, if_pos heq, List.nil_append]
      simp
    · rw [if_neg heq, ih (pos + ss) (cnt + 1)]
      have h0 : sectorOpsAt old new ss wpb pos =
          DiffOp.erase pos :: (List.range wpb).map (fun j =>
            DiffOp.write (pos + j * 128) ((new.drop (pos + j * 128)).take 128)) := by
        unfold sectorOpsAt
        rw [if_neg heq]
      rw [h0, if_neg heq, hpw pos]
      rw [Prod.mk.injEq]
      constructor
      · simp [List.cons_append]
      · omega

/-- Claim C7: for two images of the card's size, the differential
writer issues, for each differing sector, exactly one erase at the
sector base followed by `sector_size / 0x80` contiguous page writes
covering that sector and nothing for clean sectors, reporting the
number of differing sectors; identical images issue no operations at
all. -/
theorem diff_writer (total ss : Nat) (old new : List Nat)
    (hol : old.length = total) (hnl : new.length = total)
    (hts : total % ss = 0) (hsw : ss % 128 = 0) :
    diffWrite total ss old new = some
      ((List.range (total / ss)).flatMap
        (fun i => sectorOpsAt old new ss (ss / 128) (i * ss)),
       (List.range (total / ss)).countP (fun i =>
         decide ((old.drop (i * ss)).take ss ≠ (new.drop (i * ss)).take ss))) ∧
    (old = new → diffWrite total ss old new = some ([], 0)) := by
  have hmain : diffWrite total ss old new = some
      ((List.range (total / ss)).flatMap
        (fun i => sectorOpsAt old new ss (ss / 128) (i * ss)),
       (List.range (total / ss)).countP (fun i =>
         decide ((old.drop (i * ss)).take ss ≠ (new.drop (i * ss)).take ss))) := by
    unfold diffWrite
    rw [if_neg (by simp [hol, hnl]), if_neg (by omega), if_neg (by omega)]
    rw [diffLoop_eq old new ss (ss / 128)
      (fun base => pageWrites_abs new base ss hsw) (total / ss) 0 0]
    simp only [Nat.zero_add]
  refine ⟨hmain, fun he => ?_⟩
  rw [hmain, he]
  have h1 : (List.range (total / ss)).flatMap
      (fun i => sectorOpsAt new new ss (ss / 128) (i * ss)) = [] :=
    List.flatMap_eq_nil_iff.mpr (fun x hx => by unfold sectorOpsAt; rw [if_pos rfl])
  rw [h1]
  simp

set_option maxRecDepth 8000 in
/-- Witness for `diff_writer`: a 256-byte image with 128-byte sectors
where only the second sector differs. -/
theorem diff_writer_witness :
    (List.replicate 256 0 : List Nat).length = 256 ∧
    (List.replicate 128 0 ++ List.replicate 128 1 : List Nat).length = 256 ∧
    (256 : Nat) % 128 = 0 ∧ (128 : Nat) % 128 = 0 ∧
    (diffWrite 256 128 (List.replicate 256 0) (List.replicate 128 0 ++ List.replicate 128 1) = some
      ((List.range (256 / 128)).flatMap
        (fun i => sectorOpsAt (List.replicate 256 0)
          (List.replicate 128 0 ++ List.replicate 128 1) 128 (128 / 128) (i * 128)),
       (List.range (256 / 128)).countP (fun i =>
         decide (((List.replicate 256 0 : List Nat).drop (i * 128)).take 128 ≠
           ((List.replicate 128 0 ++ List.replicate 128 1 : List Nat).drop (i * 128)).take 128))) ∧
    (List.replicate 256 0 = List.replicate 128 0 ++ List.replicate 128 1 →
      diffWrite 256 128 (List.replicate 256 0)
        (List.replicate 128 0 ++ List.replicate 128 1) = some ([], 0))) :=
  ⟨by simp, by simp, by decide, by decide,
    diff_writer 256 128 (List.replicate 256 0) (List.replicate 128 0 ++ List.replicate 128 1)
      (by simp) (by simp) (by decide) (by decide)⟩

/-- `_waitForIdle` either succeeds or times out; it never raises an
argument error. -/
theorem waitForIdle_err (env : Env) (hasInt : Bool) (i : Nat) :
    (waitForIdle env hasInt i).2.2 = none ∨
      (waitForIdle env hasInt i).2.2 = some Err.timeout := by
  unfold waitForIdle
  cases hasInt with
  | true =>
    cases env.edge with
    | true => simp
    | false => simp
  | false =>
    simp only [Bool.false_eq_true, if_false]
    by_cases hp : (pollIdle env 1000 i).2.2
    · simp [hp]
    · simp [hp]

/-- Claim C8: misaligned or oversize requests fail with
`InvalidArgument` and an empty bus trace (no transfer issued):
`read_page` for any address not divisible by `0x200`, `write_page`
for any data longer than `0x80` bytes or address not divisible by
`0x80`, `erase_sector` for any address not divisible by the sector
size. -/
theorem invalid_args_rejected_before_bus :
    (∀ addr len, addr % 0x200 ≠ 0 →
      readPage addr len = ([], some Err.invalidArgument)) ∧
    (∀ (env : Env) (hasInt : Bool) (i addr : Nat) (data : List Nat),
      data.length > 0x80 →
      writePage env hasInt i addr data = ([], i, some Err.invalidArgument)) ∧
    (∀ (env : Env) (hasInt : Bool) (i addr : Nat) (data : List Nat),
      addr % 0x80 ≠ 0 →
      writePage env hasInt i addr data = ([], i, some Err.invalidArgument)) ∧
    (∀ (env : Env) (hasInt : Bool) (ss i addr : Nat),
      addr % ss ≠ 0 →
      eraseSector env hasInt ss i addr = ([], i, some Err.invalidArgument)) := by
  refine ⟨?_, ?_, ?_, ?_⟩
  · intro addr len h
    unfold readPage
    rw [if_pos h]
  · intro env hasInt i addr data h
    unfold writePage
    rw [if_pos h]
  · intro env hasInt i addr data h
    unfold writePage
    by_cases hl : data.length > 0x80
    · rw [if_pos hl]
    · rw [if_neg hl, if_pos h]
  · intro env hasInt ss i addr h
    unfold eraseSector
    rw [if_pos h]

/-- Claim C9: the three data-path methods never compare the address
against the card size (none of the embedded validations involves it):
for every address meeting the alignment (and length) precondition —
in particular addresses at or beyond `size_bytes` — validation raises
no error and the command transfer is issued on the bus. -/
theorem aligned_requests_reach_bus :
    (∀ addr len, addr % 0x200 = 0 → len ≤ 0x200 →
      readPage addr len = ([Cmd.readCmd (0x52 :: addrToBytes addr) len], none)) ∧
    (∀ (env : Env) (hasInt : Bool) (i addr : Nat) (data : List Nat),
      data.length ≤ 0x80 → addr % 0x80 = 0 →
      (writePage env hasInt i addr data).1.take 2 =
        [Cmd.clearStatus, Cmd.spiWrite (0xf2 :: (addrToBytes addr ++ data))] ∧
      (writePage env hasInt i addr data).2.2 ≠ some Err.invalidArgument) ∧
    (∀ (env : Env) (hasInt : Bool) (ss i addr : Nat), addr % ss = 0 →
      (eraseSector env hasInt ss i addr).1.take 2 =
        [Cmd.clearStatus, Cmd.spiWrite (0xf1 :: (addrToBytes addr).take 2)] ∧
      (eraseSector env hasInt ss i addr).2.2 ≠ some Err.invalidArgument) := by
  refine ⟨?_, ?_, ?_⟩
  · intro addr len h hl
    unfold readPage
    rw [if_neg (by omega), if_neg (by omega)]
  · intro env hasInt i addr data hl h
    unfold writePage
    rw [if_neg (by omega), if_neg (by omega)]
    rcases hw : (waitForIdle env hasInt i).2.2 with _ | e
    · simp only [hw]
      by_cases hs : env.statuses (waitForIdle env hasInt i).2.1 &&& 0x8 ≠ 0
      · rw [if_pos hs]
        exact ⟨rfl, by simp⟩
      · rw [if_neg hs]
        exact ⟨rfl, by simp⟩
    · simp only [hw]
      refine ⟨rfl, ?_⟩
      rcases waitForIdle_err env hasInt i with h1 | h1 <;> rw [hw] at h1
      · exact absurd h1 (by simp)
      · simp only [Option.some.injEq] at h1
        rw [h1]
        simp
  · intro env hasInt ss i addr h
    unfold eraseSector
    rw [if_neg (by omega)]
    rcases hw : (waitForIdle env hasInt i).2.2 with _ | e
    · simp only [hw]
      by_cases hs : env.statuses (waitForIdle env hasInt i).2.1 &&& 0x10 ≠ 0
      · rw [if_pos hs]
        exact ⟨rfl, by simp⟩
      · rw [if_neg hs]
        exact ⟨rfl, by simp⟩
    · simp only [hw]
      refine ⟨rfl, ?_⟩
      rcases waitForIdle_err env hasInt i with h1 | h1 <;> rw [hw] at h1
      · exact absurd h1 (by simp)
      · simp only [Option.some.injEq] at h1
        rw [h1]
        simp


/-- The polling loop depends only on the status oracle, not on the
edge line. -/
theorem pollIdle_congr (e1 e2 : Env) (h : e1.statuses = e2.statuses) :
    ∀ (f i : Nat), pollIdle e1 f i = pollIdle e2 f i := by
  intro f
  induction f with
  | zero => intro i; rfl
  | succ f ih =>
    intro i
    unfold pollIdle
    rw [h, ih (i + 1)]

/-- Claim C10: with a GPIO line bound but `INT_ENABLED` still clear
after the enable command, construction succeeds with
`has_interrupt = false`, every subsequent wait-idle is the 1 ms
status-polling path (independent of the edge line), and construction
never fails merely because interrupts stayed off. -/
theorem interrupt_failure_tolerated (env : Env) (exiId : Nat) (geom : Geometry)
    (hid : parseExiId exiId = .ok geom)
    (h0sleep : env.statuses 0 &&& 0x20 = 0)
    (h0int : env.statuses 0 &&& 0x2 = 0)
    (h1int : env.statuses 1 &&& 0x2 = 0)
    (h1unl : env.statuses 1 &&& 0x40 ≠ 0) :
    gcmInit env exiId true = .ok ⟨geom, false, none⟩ ∧
    (∀ (e2 : Env) (i : Nat), e2.statuses = env.statuses →
      waitForIdle e2 false i = waitForIdle env false i) ∧
    (∀ (i : Nat), waitForIdle env false i =
      ((pollIdle env 1000 i).1, (pollIdle env 1000 i).2.1,
        if (pollIdle env 1000 i).2.2 then none else some Err.timeout)) := by
  refine ⟨?_, ?_, fun i => rfl⟩
  · unfold gcmInit
    rw [hid]
    simp only [h0sleep, h0int, ne_eq, not_true_eq_false, if_false, ite_false, ite_true]
    have hb : (env.statuses 1 &&& 2 != 0) = false := by
      rw [h1int]
      rfl
    rw [hb]
    unfold finishInit
    rw [if_neg h1unl]
  · intro e2 i h
    unfold waitForIdle
    simp only [Bool.false_eq_true, if_false]
    rw [pollIdle_congr e2 env h]


/-- Witness for `invalid_args_rejected_before_bus` at concrete
misaligned and oversize requests. -/
theorem invalid_args_witness :
    (5 : Nat) % 0x200 ≠ 0 ∧
    readPage 5 1 = ([], some Err.invalidArgument) ∧
    (List.replicate 129 0 : List Nat).length > 0x80 ∧
    writePage ⟨fun _ => 0, false, .ok []⟩ false 0 0 (List.replicate 129 0) =
      ([], 0, some Err.invalidArgument) ∧
    (5 : Nat) % 0x80 ≠ 0 ∧
    writePage ⟨fun _ => 0, false, .ok []⟩ false 0 5 [] =
      ([], 0, some Err.invalidArgument) ∧
    (5 : Nat) % 0x2000 ≠ 0 ∧
    eraseSector ⟨fun _ => 0, false, .ok []⟩ false 0x2000 0 5 =
      ([], 0, some Err.invalidArgument) :=
  ⟨by decide, invalid_args_rejected_before_bus.1 5 1 (by decide),
   by simp,
   invalid_args_rejected_before_bus.2.1 ⟨fun _ => 0, false, .ok []⟩ false 0 0
     (List.replicate 129 0) (by simp),
   by decide,
   invalid_args_rejected_before_bus.2.2.1 ⟨fun _ => 0, false, .ok []⟩ false 0 5 [] (by decide),
   by decide,
   invalid_args_rejected_before_bus.2.2.2 ⟨fun _ => 0, false, .ok []⟩ false 0x2000 0 5 (by decide)⟩

/-- Witness for `aligned_requests_reach_bus` at address `0x4000000`
(64 MiB, at or beyond every possible card size). -/
theorem aligned_requests_witness :
    (0x4000000 : Nat) % 0x200 = 0 ∧
    readPage 0x4000000 0x200 =
      ([Cmd.readCmd (0x52 :: addrToBytes 0x4000000) 0x200], none) ∧
    (0x4000000 : Nat) % 0x80 = 0 ∧
    ((writePage ⟨fun _ => 0, false, .ok []⟩ false 0 0x4000000 []).1.take 2 =
      [Cmd.clearStatus, Cmd.spiWrite (0xf2 :: (addrToBytes 0x4000000 ++ []))] ∧
     (writePage ⟨fun _ => 0, false, .ok []⟩ false 0 0x4000000 []).2.2 ≠
       some Err.invalidArgument) ∧
    (0x4000000 : Nat) % 0x2000 = 0 ∧
    ((eraseSector ⟨fun _ => 0, false, .ok []⟩ false 0x2000 0 0x4000000).1.take 2 =
      [Cmd.clearStatus, Cmd.spiWrite (0xf1 :: (addrToBytes 0x4000000).take 2)] ∧
     (eraseSector ⟨fun _ => 0, false, .ok []⟩ false 0x2000 0 0x4000000).2.2 ≠
       some Err.invalidArgument) :=
  ⟨by decide, aligned_requests_reach_bus.1 0x4000000 0x200 (by decide) (by decide),
   by decide,
   aligned_requests_reach_bus.2.1 ⟨fun _ => 0, false, .ok []⟩ false 0 0x4000000 []
     (by decide) (by decide),
   by decide,
   aligned_requests_reach_bus.2.2 ⟨fun _ => 0, false, .ok []⟩ false 0x2000 0 0x4000000
     (by decide)⟩

/-- Witness for `interrupt_failure_tolerated` with a status oracle
reporting `INT_EN = 0` both before and after the enable command. -/
theorem interrupt_failure_witness :
    parseExiId 4 = .ok ⟨0x80000, 4, 0x2000⟩ ∧
    (Env.statuses ⟨fun n => if n = 0 then 1 else 0x41, false, .ok []⟩ 0 &&& 0x20 = 0) ∧
    (Env.statuses ⟨fun n => if n = 0 then 1 else 0x41, false, .ok []⟩ 0 &&& 0x2 = 0) ∧
    (Env.statuses ⟨fun n => if n = 0 then 1 else 0x41, false, .ok []⟩ 1 &&& 0x2 = 0) ∧
    (Env.statuses ⟨fun n => if n = 0 then 1 else 0x41, false, .ok []⟩ 1 &&& 0x40 ≠ 0) ∧
    (gcmInit ⟨fun n => if n = 0 then 1 else 0x41, false, .ok []⟩ 4 true =
      .ok ⟨⟨0x80000, 4, 0x2000⟩, false, none⟩ ∧
    (∀ (e2 : Env) (i : Nat),
      e2.statuses = Env.statuses ⟨fun n => if n = 0 then 1 else 0x41, false, .ok []⟩ →
      waitForIdle e2 false i =
        waitForIdle ⟨fun n => if n = 0 then 1 else 0x41, false, .ok []⟩ false i) ∧
    (∀ (i : Nat), waitForIdle ⟨fun n => if n = 0 then 1 else 0x41, false, .ok []⟩ false i =
      ((pollIdle ⟨fun n => if n = 0 then 1 else 0x41, false, .ok []⟩ 1000 i).1,
       (pollIdle ⟨fun n => if n = 0 then 1 else 0x41, false, .ok []⟩ 1000 i).2.1,
        if (pollIdle ⟨fun n => if n = 0 then 1 else 0x41, false, .ok []⟩ 1000 i).2.2 then none
        else some Err.timeout))) :=
  ⟨rfl, by decide, by decide, by decide, by decide,
   interrupt_failure_tolerated ⟨fun n => if n = 0 then 1 else 0x41, false, .ok []⟩ 4
     ⟨0x80000, 4, 0x2000⟩ rfl (by decide) (by decide) (by decide) (by decide)⟩

end GCAdapter
